import Mathlib

/-!
A shallow embedding of `filament.py`: the binding registry `BindingContext`
and the two resolver variants `Injector` / `AsyncInjector`.

Python values are modelled by the inductive type `PVal`.  Object identity
(Python `is`) is modelled by an allocation counter threaded through the
resolver: every construction of a class instance (and every invocation of a
dict-producing factory) consumes a fresh identifier, so two values are "the
same instance" exactly when they are equal as `PVal`s.

Python's `None` is the constructor `PVal.pnone`; the resolver's sentinel
checks (`is None` / `is not None`) translate to equality with `PVal.pnone`,
and `dict.get(k)` (whose miss result is `None`) translates to
`(alGet m k).getD PVal.pnone`.

Recursion in `resolve_` is unbounded in Python (no cycle detection), so the
embedding takes a fuel parameter; running out of fuel is reported by the
artificial error `RErr.outOfFuel`, which cannot arise for sufficiently large
fuel on terminating binding graphs.
-/

set_option autoImplicit false

deriving instance DecidableEq for Except

namespace Filament

/-- Python values occurring in this program.  `pdct i` is an (empty) dict
with identity `i`; `pobj c a` is an instance of class `c` with identity `a`;
`pawait v` is an awaitable (coroutine) whose completed value is `v`. -/
inductive PVal where
  | pnone
  | pint (n : Int)
  | pstr (s : String)
  | pdct (id : Nat)
  | pobj (c : Nat) (a : Nat)
  | pawait (v : PVal)
deriving DecidableEq, Repr

/-- Python truthiness of a `PVal` (`pdct` is always the empty dict here). -/
def PVal.falsy : PVal → Bool
  | .pnone => true
  | .pint n => n = 0
  | .pstr s => s = ""
  | .pdct _ => true
  | .pobj _ _ => false
  | .pawait _ => false

/-- Python `inspect.isawaitable`. -/
def PVal.isAwaitable : PVal → Bool
  | .pawait _ => true
  | _ => false

/-- Python `await v` for an awaitable `v` (identity on anything else; only ever
used under an `isAwaitable` guard, as in the source). -/
def PVal.awaited : PVal → PVal
  | .pawait v => v
  | v => v

/-- A resolution target: a string name, a class, or another hashable
literal (modelled by integers). -/
inductive Target where
  | str (s : String)
  | cls (c : Nat)
  | int (n : Int)
deriving DecidableEq, Repr

/-- Python `isinstance(target, str)`. -/
def Target.isStr : Target → Bool
  | .str _ => true
  | _ => false

/-- Python truthiness of a target value. -/
def Target.falsy : Target → Bool
  | .str s => s = ""
  | .cls _ => false
  | .int n => n = 0

/-- A constructor/factory parameter: its name, its annotation
(`Option.none` models `inspect.Parameter.empty`), and its default value
(`Option.none` models a required parameter). -/
structure Param where
  name : String
  annotation : Option Target
  default : Option PVal
deriving DecidableEq, Repr

/-- Behaviour of a bound function's body when invoked: return a fixed
value, or return a freshly allocated empty dict (like `lambda: {}`). -/
inductive LamBody where
  | const (v : PVal)
  | freshDict
deriving DecidableEq, Repr

/-- A concrete provider as stored in a binding: a class, a (possibly
`async`) function with a signature and a body, or a non-callable literal. -/
inductive Concrete where
  | cls (c : Nat)
  | lam (isAsync : Bool) (params : List Param) (body : LamBody)
  | lit (v : PVal)
deriving DecidableEq, Repr

/-- Python `callable(concrete)`. -/
def Concrete.isCallable : Concrete → Bool
  | .cls _ => true
  | .lam _ _ _ => true
  | .lit _ => false

/-- The concrete provider a target denotes when used as its own provider
(self-binding / default binding: Python just reuses the target object). -/
def Target.toConcrete : Target → Concrete
  | .str s => .lit (.pstr s)
  | .cls c => .cls c
  | .int n => .lit (.pint n)

/-- The class table: `inspect.signature` for classes, i.e. the constructor
parameters (minus `self`) of each class. -/
structure ClassTable where
  sig : Nat → List Param

/-- Association-list model of a Python `dict` (keys are unique in every
dict built by the program). -/
def alGet {α β : Type} [DecidableEq α] : List (α × β) → α → Option β
  | [], _ => Option.none
  | (k, v) :: rest, key => if k = key then some v else alGet rest key

/-- Python `d[key] = val`: replace the binding for `key` if present, else append. -/
def alSet {α β : Type} [DecidableEq α] : List (α × β) → α → β → List (α × β)
  | [], key, val => [(key, val)]
  | (k, v) :: rest, key, val =>
      if k = key then (key, val) :: rest else (k, v) :: alSet rest key val

/-- A binding: `(concrete provider, binding scope)`. -/
inductive BindingScope where
  | Transient
  | Local
  | Singleton
deriving DecidableEq, Repr

abbrev Binding := Concrete × BindingScope

/-- The registration error raised by `_bind` (`ValueError`). -/
inductive BindErr where
  | valueError
deriving DecidableEq, Repr

/-- The binding registry: `self._bindings`, a dict target -> (callable, binding type). -/
structure BindingContext where
  _bindings : List (Target × Binding)
deriving DecidableEq, Repr

/-- Python `BindingContext()`. -/
def BindingContext.empty : BindingContext := ⟨[]⟩

/-- Python `def _bind(self, base, callable, scope)`:
raises if `base` is falsy (intentionally checking falsiness rather than
`None`), or if `base` is a `str` given no explicit `callable`; otherwise
stores `(base if callable is None else callable, scope)` — a supplied falsy
provider is kept, only an omitted (`None`) provider defaults to `base`. -/
def BindingContext._bind (bc : BindingContext) (base : Target)
    (callable : Option Concrete) (scope : BindingScope) :
    Except BindErr BindingContext :=
  if base.falsy then .error .valueError
  else if base.isStr ∧ callable = Option.none then .error .valueError
  else .ok ⟨alSet bc._bindings base (callable.getD base.toConcrete, scope)⟩

/-- Python `def singleton(self, base, callable=None)`. -/
def BindingContext.singleton (bc : BindingContext) (base : Target)
    (callable : Option Concrete) : Except BindErr BindingContext :=
  bc._bind base callable .Singleton

/-- Python `def local(self, base, callable=None)`. -/
def BindingContext.localBind (bc : BindingContext) (base : Target)
    (callable : Option Concrete) : Except BindErr BindingContext :=
  bc._bind base callable .Local

/-- Python `def transient(self, base, callable=None)`. -/
def BindingContext.transient (bc : BindingContext) (base : Target)
    (callable : Option Concrete) : Except BindErr BindingContext :=
  bc._bind base callable .Transient

/-- Python `def get(self, target, default=None)` with the default default. -/
def BindingContext.get (bc : BindingContext) (target : Target) : Option Binding :=
  alGet bc._bindings target

/-- Errors surfacing from `resolve`: the duplicate-binding `assert`
(`AssertionError`), the natural arity error of an invocation missing a
required argument (`TypeError`), and the fuel-exhaustion artifact of the
embedding. -/
inductive RErr where
  | assertionError
  | typeError
  | outOfFuel
deriving DecidableEq, Repr

/-- The mutable state threaded through one `resolve` call: the call-scoped
cache (`cache`, the local dict created at the start of `resolve`), the
injector-lifetime cache (`self._cache`), and the allocation counter
modelling object identity. -/
structure St where
  cache : List (Target × PVal)
  gcache : List (Target × PVal)
  nextId : Nat
deriving DecidableEq, Repr

/-- Lines 65-68 / 124-127:
`cached = cache.get(target)`;
`if cached is None: cached = self._cache.get(target)`.
A Python `dict.get` miss yields `None`, hence the `getD PVal.pnone`. -/
def cachedVal (s : St) (target : Target) : PVal :=
  let cached := (alGet s.cache target).getD .pnone
  if cached = .pnone then (alGet s.gcache target).getD .pnone else cached

/-- The configuration fixed for one `resolve` call: which variant runs
(`AsyncInjector` when `isAsync`), the class table, the per-call override
context, the injector's ambient context (`self._context`) and its default
scope (`self._default_scope`). -/
structure RCfg where
  isAsync : Bool
  ct : ClassTable
  context : BindingContext
  ambient : BindingContext
  ds : BindingScope

/-- Line 73 / 132: `binding = context.get(target) or self._context.get(target)`
(a stored binding is a 2-tuple, always truthy, so `or` coalesces exactly
on absence). -/
def mergedBinding (cfg : RCfg) (target : Target) : Option Binding :=
  (cfg.context.get target).orElse (fun _ => cfg.ambient.get target)

/-- Evaluate a bound function's body; `freshDict` allocates. -/
def evalBody (body : LamBody) (nextId : Nat) : PVal × Nat :=
  match body with
  | .const v => (v, nextId)
  | .freshDict => (.pdct nextId, nextId + 1)

/-- Python `inspect.signature(concrete).parameters.values()` for a callable. -/
def sigParams (ct : ClassTable) : Concrete → List Param
  | .cls c => ct.sig c
  | .lam _ ps _ => ps
  | .lit _ => []

/-- The natural check performed by `concrete(**args)`: every parameter is
either supplied or has a default. -/
def arityOk (params : List Param) (args : List (String × PVal)) : Bool :=
  params.all (fun p => (alGet args p.name).isSome || p.default.isSome)

/-- Python `concrete(**args)`: a class constructs a fresh instance; a function
evaluates its body (an `async def` returns an awaitable of it); a missing
required argument raises `TypeError`.  Returns the result together with the
advanced allocation counter. -/
def callConcrete (ct : ClassTable) (con : Concrete)
    (args : List (String × PVal)) (nextId : Nat) : (Except RErr PVal) × Nat :=
  match con with
  | .cls c =>
      if arityOk (ct.sig c) args then (.ok (.pobj c nextId), nextId + 1)
      else (.error .typeError, nextId)
  | .lam isAsync ps body =>
      if arityOk ps args then
        let (r, nid) := evalBody body nextId
        (.ok (if isAsync then .pawait r else r), nid)
      else (.error .typeError, nextId)
  | .lit _ => (.error .typeError, nextId)

/-- Lines 82-88 / 141-147: the parameter loop of `resolve_`.  For each
parameter, in declared order: resolve by name; if that gave `None` and an
annotation is present, resolve by the annotation; add the parameter to
`args` only when the final result is not `None`.  Errors propagate. -/
def resolveParams (resolver : Target → St → (Except RErr PVal) × St) :
    List Param → List (String × PVal) → St → (Except RErr (List (String × PVal))) × St
  | [], args, s => (.ok args, s)
  | p :: ps, args, s =>
    match resolver (.str p.name) s with
    | (.error e, s₁) => (.error e, s₁)
    | (.ok result, s₁) =>
      let step : (Except RErr PVal) × St :=
        match result, Param.annotation p with
        | .pnone, some ann => resolver ann s₁
        | r, _ => (.ok r, s₁)
      match step with
      | (.error e, s₂) => (.error e, s₂)
      | (.ok result, s₂) =>
        resolveParams resolver ps
          (if result ≠ .pnone then args ++ [(p.name, result)] else args) s₂

/-- Lines 80-93 / 139-154: the branch on `callable(concrete)`.  A callable
concrete is invoked on its recursively resolved parameters — and, in the
`AsyncInjector` variant (`cfg.isAsync`), an awaitable invocation result is
awaited (lines 150-151) — while a non-callable concrete is the result
itself, unchanged. -/
def invokeStep (cfg : RCfg) (resolver : Target → St → (Except RErr PVal) × St)
    (con : Concrete) (s : St) : (Except RErr PVal) × St :=
  match con with
  | .lit v =>
    -- not a callable
    (.ok v, s)
  | con =>
    match resolveParams resolver (sigParams cfg.ct con) [] s with
    | (.error e, s₁) => (.error e, s₁)
    | (.ok args, s₁) =>
      match callConcrete cfg.ct con args s₁.nextId with
      | (.error e, nid) => (.error e, { s₁ with nextId := nid })
      | (.ok r, nid) =>
        let r := if cfg.isAsync ∧ r.isAwaitable then r.awaited else r
        (.ok r, { s₁ with nextId := nid })

/-- Lines 96-100 / 157-161: `match scope: ...` — store the result in the
injector-lifetime cache (Singleton), the call-scoped cache (Local), or
nowhere (Transient). -/
def applyScope (scope : BindingScope) (target : Target) (result : PVal) (s : St) : St :=
  match scope with
  | .Singleton => { s with gcache := alSet s.gcache target result }
  | .Local => { s with cache := alSet s.cache target result }
  | .Transient => s

/-- Lines 63-102 / 122-163: the inner `resolve_`.  Search the caches first;
an unbound string target yields `None`; otherwise take the bound or default
`(concrete, scope)`, run the invocation step, then cache the result
according to the scope. -/
def resolveR (cfg : RCfg) : Nat → Target → St → (Except RErr PVal) × St
  | 0, _, s => (.error .outOfFuel, s)
  | fuel + 1, target, s =>
    -- search cache first
    let cached := cachedVal s target
    if cached ≠ .pnone then (.ok cached, s)
    else
      -- get binding definition or default - local before global
      let binding := mergedBinding cfg target
      if binding = Option.none ∧ target.isStr then (.ok .pnone, s)
      else
        let (concrete, scope) := binding.getD (target.toConcrete, cfg.ds)
        match invokeStep cfg (resolveR cfg fuel) concrete s with
        | (.error e, s') => (.error e, s')
        | (.ok result, s') =>
          -- set cache
          (.ok result, applyScope scope target result s')

/-- An `Injector`: ambient context, default scope, singleton cache. -/
structure Injector where
  _context : BindingContext
  _default_scope : BindingScope
  _cache : List (Target × PVal)
deriving DecidableEq, Repr

/-- Python `Injector(context=None, default_scope=BindingScope.Local)`. -/
def Injector.init (context : Option BindingContext) (default_scope : BindingScope) :
    Injector :=
  ⟨context.getD BindingContext.empty, default_scope, []⟩

/-- Did the per-call context and the injector context collide?
Line 58 / 117: `context._bindings.keys() & self._context._bindings.keys()`
is non-empty. -/
def hasCollision (context ambient : BindingContext) : Bool :=
  context._bindings.any (fun kv => (ambient.get kv.1).isSome)

/-- Python `Injector.resolve(target, context=None)` (lines 54-104).  The final
state carries the (discarded) call-scoped cache, the new `self._cache`, and
the advanced allocation counter; an error result leaves the state exactly
as it was when the error was raised. -/
def Injector.resolve (inj : Injector) (ct : ClassTable) (fuel : Nat)
    (target : Target) (context : Option BindingContext) (nextId : Nat) :
    (Except RErr PVal) × St :=
  let context := context.getD BindingContext.empty
  -- ensure contexts both locally and at the injector level don't have collisions
  if hasCollision context inj._context then
    (.error .assertionError, ⟨[], inj._cache, nextId⟩)
  else
    resolveR ⟨false, ct, context, inj._context, inj._default_scope⟩
      fuel target ⟨[], inj._cache, nextId⟩

/-- An `AsyncInjector`: identical data to `Injector`. -/
structure AsyncInjector where
  _context : BindingContext
  _default_scope : BindingScope
  _cache : List (Target × PVal)
deriving DecidableEq, Repr

/-- Python `AsyncInjector(context=None, default_scope=BindingScope.Local)`. -/
def AsyncInjector.init (context : Option BindingContext) (default_scope : BindingScope) :
    AsyncInjector :=
  ⟨context.getD BindingContext.empty, default_scope, []⟩

/-- Python `AsyncInjector.resolve(target, context=None)` (lines 113-165): the same
algorithm with the awaitable-completion step enabled. -/
def AsyncInjector.resolve (inj : AsyncInjector) (ct : ClassTable) (fuel : Nat)
    (target : Target) (context : Option BindingContext) (nextId : Nat) :
    (Except RErr PVal) × St :=
  let context := context.getD BindingContext.empty
  -- ensure contexts both locally and at the injector level don't have collisions
  if hasCollision context inj._context then
    (.error .assertionError, ⟨[], inj._cache, nextId⟩)
  else
    resolveR ⟨true, ct, context, inj._context, inj._default_scope⟩
      fuel target ⟨[], inj._cache, nextId⟩

/-! ### Association-list lemmas -/

theorem alGet_alSet_self {α β : Type} [DecidableEq α] (l : List (α × β)) (k : α) (v : β) :
    alGet (alSet l k v) k = some v := by
  induction l with
  | nil => simp [alGet, alSet]
  | cons kv rest ih =>
    obtain ⟨k', v'⟩ := kv
    by_cases h : k' = k <;> simp [alGet, alSet, h, ih]

theorem alGet_alSet_ne {α β : Type} [DecidableEq α] (l : List (α × β)) (k k' : α) (v : β)
    (h : k ≠ k') : alGet (alSet l k v) k' = alGet l k' := by
  induction l with
  | nil => simp [alGet, alSet, h]
  | cons kv rest ih =>
    obtain ⟨k₀, v₀⟩ := kv
    by_cases h₀ : k₀ = k
    · subst h₀
      simp [alGet, alSet, h]
    · simp only [alSet, if_neg h₀]
      by_cases h₁ : k₀ = k' <;> simp [alGet, h₁, ih]

theorem alGet_eq_some_mem {α β : Type} [DecidableEq α] (l : List (α × β)) (k : α) (v : β)
    (h : alGet l k = some v) : (k, v) ∈ l := by
  induction l with
  | nil => simp [alGet] at h
  | cons kv rest ih =>
    obtain ⟨k₀, v₀⟩ := kv
    by_cases h₀ : k₀ = k
    · subst h₀
      have hv : v₀ = v := by simpa [alGet] using h
      subst hv
      exact List.mem_cons_self _ _
    · simp only [alGet, if_neg h₀] at h
      exact List.mem_cons_of_mem _ (ih h)

theorem mem_keys_alSet {α β : Type} [DecidableEq α] (l : List (α × β)) (k a : α) (v : β) :
    a ∈ (alSet l k v).map Prod.fst ↔ a = k ∨ a ∈ l.map Prod.fst := by
  induction l with
  | nil => simp [alSet]
  | cons kv rest ih =>
    obtain ⟨k₀, v₀⟩ := kv
    by_cases h₀ : k₀ = k
    · subst h₀
      simp only [alSet, if_true, eq_self_iff_true, List.map_cons, List.mem_cons]
      tauto
    · simp only [alSet, if_neg h₀, List.map_cons, List.mem_cons, ih]
      tauto

theorem alSet_keys_nodup {α β : Type} [DecidableEq α] (l : List (α × β)) (k : α) (v : β)
    (h : (l.map Prod.fst).Nodup) : ((alSet l k v).map Prod.fst).Nodup := by
  induction l with
  | nil => simp [alSet]
  | cons kv rest ih =>
    obtain ⟨k₀, v₀⟩ := kv
    simp only [List.map_cons, List.nodup_cons] at h
    by_cases h₀ : k₀ = k
    · subst h₀
      simpa [alSet] using h
    · simp only [alSet, if_neg h₀, List.map_cons, List.nodup_cons]
      refine ⟨?_, ih h.2⟩
      rw [mem_keys_alSet]
      rintro (h' | h')
      · exact h₀ h'
      · exact h.1 h'

/-! ### The scope a target would be cached under

`resolve_` writes a cache entry for `target` exactly according to the scope
of its merged (or default) binding; an unbound string target returns before
the caching step and is assigned no scope. -/

/-- The scope the resolver associates with a target: the scope of its
merged binding, the injector default for an unbound non-string target, and
none for an unbound string target (early `None` return). -/
def assignedScope (cfg : RCfg) (t : Target) : Option BindingScope :=
  match mergedBinding cfg t with
  | some (_, sc) => some sc
  | Option.none => if t.isStr then Option.none else some cfg.ds

/-! ### Generic preservation machinery

`resolveRel` below proves, in one induction, every property of the form
"`resolve_` only transforms the state along a transitive relation `Rel`":
allocation-counter monotonicity and the two cache frame properties are
instances. -/

theorem callConcrete_nextId_le (ct : ClassTable) (con : Concrete)
    (args : List (String × PVal)) (n : Nat) :
    n ≤ (callConcrete ct con args n).2 := by
  cases con with
  | cls c =>
    by_cases h : arityOk (ct.sig c) args <;> simp [callConcrete, h]
  | lam la ps body =>
    by_cases h : arityOk ps args
    · cases body <;> simp [callConcrete, h, evalBody]
    · simp [callConcrete, h]
  | lit v => simp [callConcrete]

section Rel

variable (Rel : St → St → Prop)

/-- The `Rel`-preservation of the parameter loop, given `Rel`-preservation of
the resolver it calls. -/
theorem resolveParams_rel
    (htrans : ∀ {a b c : St}, Rel a b → Rel b c → Rel a c)
    (hrefl : ∀ s : St, Rel s s)
    (resolver : Target → St → (Except RErr PVal) × St)
    (hres : ∀ u s, Rel s (resolver u s).2) :
    ∀ (ps : List Param) (args : List (String × PVal)) (s : St),
      Rel s (resolveParams resolver ps args s).2 := by
  intro ps
  induction ps with
  | nil => intro args s; exact hrefl s
  | cons p ps ih =>
    intro args s
    simp only [resolveParams]
    rcases h1 : resolver (.str p.name) s with ⟨r1, s1⟩
    have R1 : Rel s s1 := by
      have := hres (.str p.name) s
      rw [h1] at this
      exact this
    cases r1 with
    | error e => exact R1
    | ok result =>
      rcases result with _ | n | str | i | ⟨c, a⟩ | w <;>
        rcases hann : Param.annotation p with _ | ann <;>
        simp only
      case pnone.some =>
        rcases h2 : resolver ann s1 with ⟨r2, s2⟩
        have R2 : Rel s1 s2 := by
          have := hres ann s1
          rw [h2] at this
          exact this
        cases r2 with
        | error e => exact htrans R1 R2
        | ok result => exact htrans R1 (htrans R2 (ih _ s2))
      all_goals exact htrans R1 (ih _ s1)

/-- The `Rel`-preservation of the invocation step. -/
theorem invokeStep_rel
    (htrans : ∀ {a b c : St}, Rel a b → Rel b c → Rel a c)
    (hrefl : ∀ s : St, Rel s s)
    (hnext : ∀ (s : St) (n : Nat), s.nextId ≤ n → Rel s { s with nextId := n })
    (cfg : RCfg) (resolver : Target → St → (Except RErr PVal) × St)
    (hres : ∀ u s, Rel s (resolver u s).2) (con : Concrete) (s : St) :
    Rel s (invokeStep cfg resolver con s).2 := by
  have main : ∀ c' : Concrete,
      Rel s (match resolveParams resolver (sigParams cfg.ct c') [] s with
        | (.error e, s₁) => ((.error e : Except RErr PVal), s₁)
        | (.ok args, s₁) =>
          match callConcrete cfg.ct c' args s₁.nextId with
          | (.error e, nid) => (.error e, { s₁ with nextId := nid })
          | (.ok r, nid) =>
            let r := if cfg.isAsync ∧ r.isAwaitable then r.awaited else r
            (.ok r, { s₁ with nextId := nid })).2 := by
    intro c'
    rcases hp : resolveParams resolver (sigParams cfg.ct c') [] s with ⟨rp, s₁⟩
    have Rp : Rel s s₁ := by
      have := resolveParams_rel Rel htrans hrefl resolver hres (sigParams cfg.ct c') [] s
      rw [hp] at this
      exact this
    cases rp with
    | error e => exact Rp
    | ok args =>
      dsimp only
      rcases hc : callConcrete cfg.ct c' args s₁.nextId with ⟨rc, nid⟩
      have hle : s₁.nextId ≤ nid := by
        have := callConcrete_nextId_le cfg.ct c' args s₁.nextId
        rw [hc] at this
        exact this
      cases rc with
      | error e => exact htrans Rp (hnext s₁ nid hle)
      | ok r =>
        dsimp only
        exact htrans Rp (hnext s₁ nid hle)
  cases con with
  | lit v => exact hrefl s
  | cls c => exact main _
  | lam la ps body => exact main _

/-- The `Rel`-preservation of the whole recursive resolver. -/
theorem resolveR_rel
    (htrans : ∀ {a b c : St}, Rel a b → Rel b c → Rel a c)
    (hrefl : ∀ s : St, Rel s s)
    (hnext : ∀ (s : St) (n : Nat), s.nextId ≤ n → Rel s { s with nextId := n })
    (cfg : RCfg)
    (happly : ∀ (sc : BindingScope) (u : Target) (v : PVal) (s : St),
      assignedScope cfg u = some sc → Rel s (applyScope sc u v s)) :
    ∀ (fuel : Nat) (u : Target) (s : St), Rel s (resolveR cfg fuel u s).2 := by
  intro fuel
  induction fuel with
  | zero => intro u s; exact hrefl s
  | succ n ih =>
    intro u s
    simp only [resolveR]
    by_cases hc : cachedVal s u ≠ .pnone
    · rw [if_pos hc]; exact hrefl s
    · rw [if_neg hc]
      by_cases hb : mergedBinding cfg u = Option.none ∧ u.isStr = true
      · rw [if_pos hb]; exact hrefl s
      · rw [if_neg hb]
        rcases hmb : mergedBinding cfg u with _ | ⟨con, sc⟩
        · -- default binding (target, default scope); target is not a string
          have hstr : u.isStr = false := by
            rcases h' : u.isStr
            · rfl
            · exact absurd ⟨hmb, h'⟩ hb
          have hsc : assignedScope cfg u = some cfg.ds := by
            simp [assignedScope, hmb, hstr]
          simp only [hmb, Option.getD]
          rcases hstep : invokeStep cfg (resolveR cfg n) u.toConcrete s with ⟨r, s'⟩
          have Rs : Rel s s' := by
            have := invokeStep_rel Rel htrans hrefl hnext cfg (resolveR cfg n)
              (fun u' s'' => ih u' s'') u.toConcrete s
            rw [hstep] at this
            exact this
          cases r with
          | error e => exact Rs
          | ok result => exact htrans Rs (happly cfg.ds u result s' hsc)
        · have hsc : assignedScope cfg u = some sc := by
            simp [assignedScope, hmb]
          simp only [hmb, Option.getD]
          rcases hstep : invokeStep cfg (resolveR cfg n) con s with ⟨r, s'⟩
          have Rs : Rel s s' := by
            have := invokeStep_rel Rel htrans hrefl hnext cfg (resolveR cfg n)
              (fun u' s'' => ih u' s'') con s
            rw [hstep] at this
            exact this
          cases r with
          | error e => exact Rs
          | ok result => exact htrans Rs (happly sc u result s' hsc)

end Rel

/-! ### Instances of the preservation machinery -/

/-- The allocation counter never decreases across a resolution. -/
theorem resolveR_nextId_mono (cfg : RCfg) (fuel : Nat) (u : Target) (s : St) :
    s.nextId ≤ (resolveR cfg fuel u s).2.nextId := by
  refine resolveR_rel (fun a b => a.nextId ≤ b.nextId) (fun hab hbc => le_trans hab hbc)
    (fun s => le_refl _) (fun s n h => h) cfg ?_ fuel u s
  intro sc u v s _
  cases sc <;> simp [applyScope]

theorem resolveParams_nextId_mono (resolver : Target → St → (Except RErr PVal) × St)
    (hmono : ∀ u s, s.nextId ≤ (resolver u s).2.nextId)
    (ps : List Param) (args : List (String × PVal)) (s : St) :
    s.nextId ≤ (resolveParams resolver ps args s).2.nextId :=
  resolveParams_rel (fun a b => a.nextId ≤ b.nextId) (fun hab hbc => le_trans hab hbc)
    (fun _ => le_refl _) resolver hmono ps args s

/-- Call-scoped-cache frame property: a resolution never changes the
call-scoped cache entry of a target whose assigned scope is not `Local`. -/
theorem resolveR_cache_frame (cfg : RCfg) (t : Target)
    (h : assignedScope cfg t ≠ some .Local) (fuel : Nat) (u : Target) (s : St) :
    alGet (resolveR cfg fuel u s).2.cache t = alGet s.cache t := by
  refine resolveR_rel (fun a b => alGet b.cache t = alGet a.cache t)
    (fun hab hbc => hbc.trans hab) (fun s => rfl) (fun s n _ => rfl) cfg ?_ fuel u s
  intro sc u v s hsc
  cases sc with
  | Singleton => rfl
  | Transient => rfl
  | Local =>
    have hne : u ≠ t := by
      intro he
      subst he
      exact h hsc
    exact alGet_alSet_ne _ _ _ _ hne

/-- Injector-lifetime-cache frame property: a resolution never changes the
injector cache entry of a target whose assigned scope is not `Singleton`. -/
theorem resolveR_gcache_frame (cfg : RCfg) (t : Target)
    (h : assignedScope cfg t ≠ some .Singleton) (fuel : Nat) (u : Target) (s : St) :
    alGet (resolveR cfg fuel u s).2.gcache t = alGet s.gcache t := by
  refine resolveR_rel (fun a b => alGet b.gcache t = alGet a.gcache t)
    (fun hab hbc => hbc.trans hab) (fun s => rfl) (fun s n _ => rfl) cfg ?_ fuel u s
  intro sc u v s hsc
  cases sc with
  | Local => rfl
  | Transient => rfl
  | Singleton =>
    have hne : u ≠ t := by
      intro he
      subst he
      exact h hsc
    exact alGet_alSet_ne _ _ _ _ hne

/-! ### Unfolding lemmas for one step of `resolve_` -/

/-- Cache hit (lines 63-69): a non-`None` cached value is returned
immediately, with the state — and hence both caches — untouched, whatever
the bindings say and whatever provider is bound. -/
theorem resolveR_cacheHit (cfg : RCfg) (fuel : Nat) (t : Target) (s : St) (v : PVal)
    (hv : cachedVal s t = v) (hne : v ≠ .pnone) :
    resolveR cfg (fuel + 1) t s = (.ok v, s) := by
  simp only [resolveR, hv]
  rw [if_pos hne]

/-- Unbound string target (lines 75-76): `None` is returned, the state is
untouched. -/
theorem resolveR_unboundStr (cfg : RCfg) (fuel : Nat) (x : String) (s : St)
    (hmiss : cachedVal s (.str x) = .pnone)
    (hb : mergedBinding cfg (.str x) = Option.none) :
    resolveR cfg (fuel + 1) (.str x) s = (.ok .pnone, s) := by
  simp only [resolveR, hmiss, hb]
  simp [Target.isStr]

/-- Cache miss with a binding: `resolve_` runs the invocation step on the
bound concrete and then the caching step for the bound scope. -/
theorem resolveR_missBound (cfg : RCfg) (fuel : Nat) (t : Target) (s : St)
    (con : Concrete) (sc : BindingScope)
    (hmiss : cachedVal s t = .pnone)
    (hb : mergedBinding cfg t = some (con, sc)) :
    resolveR cfg (fuel + 1) t s =
      match invokeStep cfg (resolveR cfg fuel) con s with
      | (.error e, s') => (.error e, s')
      | (.ok result, s') => (.ok result, applyScope sc t result s') := by
  simp only [resolveR, hmiss, hb]
  simp

/-- Cache miss, no binding, non-string target: `resolve_` self-binds the
target under the injector's default scope. -/
theorem resolveR_missDefault (cfg : RCfg) (fuel : Nat) (t : Target) (s : St)
    (hmiss : cachedVal s t = .pnone)
    (hb : mergedBinding cfg t = Option.none)
    (hstr : t.isStr = false) :
    resolveR cfg (fuel + 1) t s =
      match invokeStep cfg (resolveR cfg fuel) t.toConcrete s with
      | (.error e, s') => (.error e, s')
      | (.ok result, s') => (.ok result, applyScope cfg.ds t result s') := by
  simp only [resolveR, hmiss, hb]
  simp [hstr]

/-! ### Shape of a successful invocation -/

/-- The value produced by invoking a bound function: its body's value,
wrapped in an awaitable when the function is `async`, and unwrapped once by
the suspend-capable variant when the wrapped value is awaitable. -/
def lamResult (isAsyncCfg la : Bool) (body : LamBody) (n : Nat) : PVal :=
  let r := (evalBody body n).1
  let r := if la then PVal.pawait r else r
  if isAsyncCfg ∧ r.isAwaitable then r.awaited else r

/-- What a successful invocation step can return, by kind of concrete:
a class yields a freshly allocated instance of that class; a function
yields `lamResult` at some allocation counter at least `lo`; a literal
passes through unchanged. -/
def resultShape (isAsync : Bool) (con : Concrete) (lo hi : Nat) (v : PVal) : Prop :=
  match con with
  | .cls c => ∃ a, v = .pobj c a ∧ lo ≤ a ∧ a < hi
  | .lam la _ body => ∃ n, lo ≤ n ∧ v = lamResult isAsync la body n
  | .lit x => v = x

theorem invokeStep_ok_shape (cfg : RCfg)
    (resolver : Target → St → (Except RErr PVal) × St)
    (hmono : ∀ u s, s.nextId ≤ (resolver u s).2.nextId)
    (con : Concrete) (s : St) (v : PVal) (s' : St)
    (h : invokeStep cfg resolver con s = (.ok v, s')) :
    resultShape cfg.isAsync con s.nextId s'.nextId v := by
  cases con with
  | lit x =>
    simp only [invokeStep, Prod.mk.injEq, Except.ok.injEq] at h
    simpa [resultShape] using h.1.symm
  | cls c =>
    simp only [invokeStep] at h
    rcases hp : resolveParams resolver (sigParams cfg.ct (.cls c)) [] s with ⟨rp, s₁⟩
    rw [hp] at h
    have hlo : s.nextId ≤ s₁.nextId := by
      have := resolveParams_nextId_mono resolver hmono (sigParams cfg.ct (.cls c)) [] s
      rw [hp] at this
      exact this
    cases rp with
    | error e => simp at h
    | ok args =>
      dsimp only at h
      by_cases ha : arityOk (cfg.ct.sig c) args = true
      · simp only [callConcrete, if_pos ha, PVal.isAwaitable, Bool.false_eq_true, and_false,
          if_false, Prod.mk.injEq, Except.ok.injEq] at h
        obtain ⟨h1, h2⟩ := h
        subst h1
        refine ⟨s₁.nextId, rfl, hlo, ?_⟩
        rw [← h2]
        exact Nat.lt_succ_self _
      · simp [callConcrete, ha] at h
  | lam la ps body =>
    simp only [invokeStep] at h
    rcases hp : resolveParams resolver (sigParams cfg.ct (.lam la ps body)) [] s with ⟨rp, s₁⟩
    rw [hp] at h
    have hlo : s.nextId ≤ s₁.nextId := by
      have := resolveParams_nextId_mono resolver hmono (sigParams cfg.ct (.lam la ps body)) [] s
      rw [hp] at this
      exact this
    cases rp with
    | error e => simp at h
    | ok args =>
      dsimp only at h
      by_cases ha : arityOk ps args = true
      · cases body with
        | const k =>
          simp only [callConcrete, if_pos ha, evalBody, Prod.mk.injEq, Except.ok.injEq] at h
          obtain ⟨h1, h2⟩ := h
          subst h1
          exact ⟨s₁.nextId, hlo, by simp [lamResult, evalBody]⟩
        | freshDict =>
          simp only [callConcrete, if_pos ha, evalBody, Prod.mk.injEq, Except.ok.injEq] at h
          obtain ⟨h1, h2⟩ := h
          subst h1
          exact ⟨s₁.nextId, hlo, by simp [lamResult, evalBody]⟩
      · simp [callConcrete, ha] at h

/-! ### Claim C4 -/

/-- Registration fails exactly on a falsy target or a provider-less string
target. -/
theorem bind_error_iff (bc : BindingContext) (base : Target) (callable : Option Concrete)
    (scope : BindingScope) :
    (∃ e, bc._bind base callable scope = .error e) ↔
      (base.falsy = true ∨ (base.isStr = true ∧ callable = Option.none)) := by
  by_cases hf : base.falsy = true
  · simp [BindingContext._bind, hf]
    exact ⟨.valueError, trivial⟩
  · by_cases hs : base.isStr = true ∧ callable = Option.none
    · simp [BindingContext._bind, hf, hs]
      exact ⟨.valueError, trivial⟩
    · simp [BindingContext._bind, hf, hs]

/-- A successful registration stores exactly the supplied provider (or the
target itself when the provider was omitted) under the given scope. -/
theorem bind_ok_bindings (bc : BindingContext) (base : Target)
    (callable : Option Concrete) (scope : BindingScope) (bc' : BindingContext)
    (hok : bc._bind base callable scope = .ok bc') :
    bc'._bindings = alSet bc._bindings base (callable.getD base.toConcrete, scope) := by
  by_cases hf : base.falsy = true
  · simp [BindingContext._bind, hf] at hok
  · by_cases hs : base.isStr = true ∧ callable = Option.none
    · simp [BindingContext._bind, hf, hs] at hok
    · simp only [BindingContext._bind, hf, hs, if_false, Bool.false_eq_true,
        Except.ok.injEq] at hok
      rw [← hok]

theorem bind_ok_get (bc : BindingContext) (base : Target) (callable : Option Concrete)
    (scope : BindingScope) (bc' : BindingContext)
    (hok : bc._bind base callable scope = .ok bc') :
    bc'.get base = some (callable.getD base.toConcrete, scope) := by
  show alGet bc'._bindings base = _
  rw [bind_ok_bindings bc base callable scope bc' hok]
  exact alGet_alSet_self _ _ _

/-- C4: for every scope (`singleton`, `local`, `transient` all delegate to
`_bind`), `_bind` raises a `ValueError` if and only if the target is falsy
(regardless of its type) or the target is a string with no explicit
provider; in every other case the binding is recorded, with the provider
defaulting to the target itself exactly when the provider argument is
omitted (`None`), so a supplied falsy provider is kept. -/
theorem C4_bind_validation :
    ∀ (bc : BindingContext) (base : Target) (callable : Option Concrete)
      (scope : BindingScope),
      ((∃ e, bc._bind base callable scope = .error e) ↔
        (base.falsy = true ∨ (base.isStr = true ∧ callable = Option.none)))
      ∧ (∀ bc', bc._bind base callable scope = .ok bc' →
          bc'.get base = some (callable.getD base.toConcrete, scope))
      ∧ (∀ bc' con, callable = some con → bc._bind base callable scope = .ok bc' →
          bc'.get base = some (con, scope))
      ∧ bc.singleton base callable = bc._bind base callable .Singleton
      ∧ bc.localBind base callable = bc._bind base callable .Local
      ∧ bc.transient base callable = bc._bind base callable .Transient := by
  intro bc base callable scope
  refine ⟨bind_error_iff bc base callable scope, ?_, ?_, rfl, rfl, rfl⟩
  · intro bc' hok
    exact bind_ok_get bc base callable scope bc' hok
  · intro bc' con hc hok
    have := bind_ok_get bc base callable scope bc' hok
    rw [hc] at this
    exact this

/-- Witness for C4: binding the string `"x"` to a supplied empty dict
(a falsy provider) under `Transient` succeeds and keeps the dict. -/
theorem C4_bind_validation_witness :
    BindingContext.empty._bind (.str "x") (some (.lit (.pdct 0))) .Transient =
      .ok ⟨[(.str "x", (.lit (.pdct 0), .Transient))]⟩
    ∧ (⟨[(.str "x", (.lit (.pdct 0), .Transient))]⟩ : BindingContext).get (.str "x") =
        some (.lit (.pdct 0), .Transient) :=
  ⟨by decide,
    (C4_bind_validation BindingContext.empty (.str "x") (some (.lit (.pdct 0)))
      .Transient).2.1 _ (by decide)⟩

/-! ### Claim C10 -/

/-- A context holding the single binding `"x" -> ("y", Singleton)`. -/
def bcX : BindingContext := ⟨[(.str "x", (.lit (.pstr "y"), .Singleton))]⟩

/-- C10 counterexample: rebinding the same target a second time CAN raise:
after `singleton('x', 'y')` succeeds, `singleton('x')` (no provider) raises
`ValueError`, so "binding the same target a second time never raises an
error" is false as stated. -/
theorem C10_rebind_counterexample :
    BindingContext.empty.singleton (.str "x") (some (.lit (.pstr "y"))) = .ok bcX
    ∧ bcX.singleton (.str "x") Option.none = .error .valueError := by
  constructor
  · decide
  · decide

/-- C10 (amended): rebinding an already-bound target is validated exactly
like a first bind — the existing binding never causes an error — and on
success the new `(provider, scope)` pair replaces the earlier one: lookup
returns only the most recent pair, and the registry still has at most one
entry per target (keys stay duplicate-free). -/
theorem C10_rebind_replaces :
    ∀ (bc : BindingContext) (base : Target) (c₁ : Option Concrete) (sc₁ : BindingScope)
      (c₂ : Option Concrete) (sc₂ : BindingScope) (bc₁ : BindingContext),
      bc._bind base c₁ sc₁ = .ok bc₁ →
      (((∃ e, bc₁._bind base c₂ sc₂ = .error e) ↔
          (base.falsy = true ∨ (base.isStr = true ∧ c₂ = Option.none)))
        ∧ ∀ bc₂, bc₁._bind base c₂ sc₂ = .ok bc₂ →
            bc₂.get base = some (c₂.getD base.toConcrete, sc₂)
            ∧ ((bc._bindings.map Prod.fst).Nodup → (bc₂._bindings.map Prod.fst).Nodup)) := by
  intro bc base c₁ sc₁ c₂ sc₂ bc₁ h₁
  refine ⟨bind_error_iff bc₁ base c₂ sc₂, ?_⟩
  intro bc₂ h₂
  refine ⟨bind_ok_get bc₁ base c₂ sc₂ bc₂ h₂, ?_⟩
  intro hnd
  rw [bind_ok_bindings bc₁ base c₂ sc₂ bc₂ h₂, bind_ok_bindings bc base c₁ sc₁ bc₁ h₁]
  exact alSet_keys_nodup _ _ _ (alSet_keys_nodup _ _ _ hnd)

/-- Witness for C10 (amended): rebinding `"x"` from `("y", Singleton)` to
`("z", Local)` succeeds and lookup yields only the new pair. -/
theorem C10_rebind_replaces_witness :
    (⟨[(.str "x", (.lit (.pstr "z"), .Local))]⟩ : BindingContext).get (.str "x") =
        some (.lit (.pstr "z"), .Local)
    ∧ ((⟨[(.str "x", (.lit (.pstr "z"), .Local))]⟩ : BindingContext)._bindings.map
        Prod.fst).Nodup :=
  ((C10_rebind_replaces BindingContext.empty (.str "x") (some (.lit (.pstr "y"))) .Singleton
      (some (.lit (.pstr "z"))) .Local bcX (by decide)).2
    ⟨[(.str "x", (.lit (.pstr "z"), .Local))]⟩ (by decide)).imp id (fun f => f (by decide))

/-! ### Claim C2 -/

/-- A class table with no constructor parameters for any class. -/
def ct0 : ClassTable := ⟨fun _ => []⟩

/-- Class 0 takes one required, unannotated parameter `test`. -/
def ctReq : ClassTable := ⟨fun c => if c = 0 then [⟨"test", Option.none, Option.none⟩] else []⟩

/-- Target `"test"` bound to a provider that returns `None`. -/
def bcNoneProv : BindingContext := ⟨[(.str "test", (.lam false [] (.const .pnone), .Transient))]⟩

/-- Target `"test"` bound to a provider that returns `5`. -/
def bcFiveProv : BindingContext := ⟨[(.str "test", (.lam false [] (.const (.pint 5)), .Transient))]⟩

/-- C2 counterexample: the unresolved sentinel is Python's `None`, and a
provider CAN produce `None`; such a value is mistaken for "unresolved".
With `"test"` bound to a None-returning provider, resolving `"test"`
returns exactly what resolving an unbound name returns, and a class whose
required parameter is `"test"` fails with the arity `TypeError` (the
resolved `None` is dropped from the argument set), while the same class
resolves fine when the provider returns a real value.  So "no value a
provider can produce is ever mistaken for unresolved" is false. -/
theorem C2_sentinel_counterexample :
    (Injector.resolve ⟨bcNoneProv, .Local, []⟩ ct0 5 (.str "test") Option.none 0).1 =
        .ok .pnone
    ∧ (Injector.resolve ⟨BindingContext.empty, .Local, []⟩ ct0 5 (.str "test")
        Option.none 0).1 = .ok .pnone
    ∧ (Injector.resolve ⟨bcNoneProv, .Local, []⟩ ctReq 5 (.cls 0) Option.none 0).1 =
        .error .typeError
    ∧ (Injector.resolve ⟨bcFiveProv, .Local, []⟩ ctReq 5 (.cls 0) Option.none 0).1 =
        .ok (.pobj 0 0) := by
  refine ⟨by decide, by decide, by decide, by decide⟩

/-- C2 (amended): for every string target with no binding in either
context (and no cached value), resolution yields the unresolved sentinel
(`None`) with the state untouched, rather than failing; and the sentinel is
distinct from every falsy-but-non-`None` resolved value: a target bound to
such a literal (0, `""`, `{}`) resolves to that value, not to the sentinel.
(The sentinel is `None` itself, so a provider producing `None` is the one
value that IS conflated with it — see the counterexample.) -/
theorem C2_unresolved_sentinel :
    (∀ (cfg : RCfg) (fuel : Nat) (x : String) (s : St),
      mergedBinding cfg (.str x) = Option.none → cachedVal s (.str x) = .pnone →
        resolveR cfg (fuel + 1) (.str x) s = (.ok .pnone, s))
    ∧ (∀ (v : PVal), v.falsy = true → v ≠ .pnone →
        ∀ (cfg : RCfg) (fuel : Nat) (t : Target) (s : St) (sc : BindingScope),
          mergedBinding cfg t = some (.lit v, sc) → cachedVal s t = .pnone →
            (resolveR cfg (fuel + 1) t s).1 = .ok v) := by
  constructor
  · intro cfg fuel x s hb hmiss
    exact resolveR_unboundStr cfg fuel x s hmiss hb
  · intro v _ _ cfg fuel t s sc hb hmiss
    rw [resolveR_missBound cfg fuel t s (.lit v) sc hmiss hb]
    simp [invokeStep]

/-- Witness for C2 (amended): an unbound string resolves to the sentinel,
and a string bound to the falsy literal `{}` resolves to that dict. -/
theorem C2_unresolved_sentinel_witness :
    resolveR ⟨false, ct0, BindingContext.empty, BindingContext.empty, .Local⟩ 1
        (.str "nope") ⟨[], [], 0⟩ = (.ok .pnone, ⟨[], [], 0⟩)
    ∧ (resolveR ⟨false, ct0, BindingContext.empty,
        ⟨[(.str "d", (.lit (.pdct 9), .Transient))]⟩, .Local⟩ 1
        (.str "d") ⟨[], [], 0⟩).1 = .ok (.pdct 9) :=
  ⟨C2_unresolved_sentinel.1 _ 0 "nope" _ (by decide) (by decide),
    C2_unresolved_sentinel.2 (.pdct 9) (by decide) (by decide) _ 0 (.str "d") _ .Transient
      (by decide) (by decide)⟩

/-! ### Claim C3 -/

/-- Target `"x"` bound (Singleton) to a provider whose parameter `a` is annotated
with class 0 and whose body returns `None`: invoking it constructs a fresh
class-0 instance and then yields `None`. -/
def bcNoneSingleton : BindingContext :=
  ⟨[(.str "x", (.lam false [⟨"a", some (.cls 0), Option.none⟩] (.const .pnone), .Singleton))]⟩

/-- C3 counterexample: a cached value of `None` is treated as absent.
The first call caches `None` for `"x"` in the injector-lifetime cache
(entry present: `alGet` yields `some .pnone`), yet a second call re-invokes
the provider — observable because a fresh class-0 instance is constructed
again (the allocation counter advances from 1 to 2) instead of the cached
value being returned immediately.  So "this holds for every cached value"
fails at the value `None`. -/
theorem C3_cached_none_counterexample :
    Injector.resolve ⟨bcNoneSingleton, .Local, []⟩ ct0 10 (.str "x") Option.none 0 =
      (.ok .pnone, ⟨[(.cls 0, .pobj 0 0)], [(.str "x", .pnone)], 1⟩)
    ∧ alGet [(Target.str "x", PVal.pnone)] (.str "x") = some .pnone
    ∧ Injector.resolve ⟨bcNoneSingleton, .Local, [(.str "x", .pnone)]⟩ ct0 10 (.str "x")
        Option.none 1 =
      (.ok .pnone, ⟨[(.cls 0, .pobj 0 1)], [(.str "x", .pnone)], 2⟩) := by
  refine ⟨by decide, by decide, by decide⟩

/-- C3 (amended): for every target whose call-scoped cache entry holds a
non-`None` value — in particular any falsy-but-non-`None` value — `resolve_`
returns it immediately with the state untouched (so no binding is consulted
and no provider invoked, whatever the contexts hold); failing that, the same
holds for a non-`None` value in the injector-lifetime cache.  The call-scoped
cache always wins (the first part holds for arbitrary injector-cache
contents).  Presence is tracked by an `is None` test, so a cached `None` is
the one value treated as absent (see the counterexample). -/
theorem C3_cache_hit :
    (∀ (cfg : RCfg) (fuel : Nat) (t : Target) (s : St) (v : PVal),
      (alGet s.cache t).getD .pnone = v → v ≠ .pnone →
        resolveR cfg (fuel + 1) t s = (.ok v, s))
    ∧ (∀ (cfg : RCfg) (fuel : Nat) (t : Target) (s : St) (v : PVal),
      (alGet s.cache t).getD .pnone = .pnone → (alGet s.gcache t).getD .pnone = v →
        v ≠ .pnone → resolveR cfg (fuel + 1) t s = (.ok v, s)) := by
  constructor
  · intro cfg fuel t s v h1 hne
    refine resolveR_cacheHit cfg fuel t s v ?_ hne
    simp only [cachedVal, h1]
    rw [if_neg hne]
  · intro cfg fuel t s v h1 h2 hne
    refine resolveR_cacheHit cfg fuel t s v ?_ hne
    simp [cachedVal, h1, h2]

/-- Witness for C3 (amended): a falsy empty dict sitting in the call-scoped
cache is returned as-is, even though the injector cache holds a different
value for the same target and the contexts bind it to yet another provider. -/
theorem C3_cache_hit_witness :
    resolveR ⟨false, ct0, BindingContext.empty, bcFiveProv, .Local⟩ 1 (.str "test")
        ⟨[(.str "test", .pdct 7)], [(.str "test", .pint 9)], 3⟩ =
      (.ok (.pdct 7), ⟨[(.str "test", .pdct 7)], [(.str "test", .pint 9)], 3⟩) :=
  C3_cache_hit.1 _ 0 (.str "test") _ (.pdct 7) (by decide) (by decide)

/-! ### Claim C5 -/

theorem hasCollision_true (ctx amb : BindingContext) (k : Target) (b₁ b₂ : Binding)
    (h1 : ctx.get k = some b₁) (h2 : amb.get k = some b₂) :
    hasCollision ctx amb = true := by
  rw [hasCollision, List.any_eq_true]
  refine ⟨(k, b₁), alGet_eq_some_mem _ _ _ h1, ?_⟩
  simp [h2]

/-- C5: for either injector variant, if the override context and the
ambient context both bind some target `k`, `resolve` fails with the
duplicate-binding `AssertionError` and returns the initial state unchanged:
the injector-lifetime cache is exactly as before and the allocation counter
has not moved, so no provider was invoked and nothing was constructed. -/
theorem C5_collision_atomic :
    (∀ (inj : Injector) (ct : ClassTable) (fuel : Nat) (t : Target)
       (ctx : BindingContext) (nid : Nat) (k : Target) (b₁ b₂ : Binding),
      ctx.get k = some b₁ → inj._context.get k = some b₂ →
        Injector.resolve inj ct fuel t (some ctx) nid =
          (.error .assertionError, ⟨[], inj._cache, nid⟩))
    ∧ (∀ (inj : AsyncInjector) (ct : ClassTable) (fuel : Nat) (t : Target)
       (ctx : BindingContext) (nid : Nat) (k : Target) (b₁ b₂ : Binding),
      ctx.get k = some b₁ → inj._context.get k = some b₂ →
        AsyncInjector.resolve inj ct fuel t (some ctx) nid =
          (.error .assertionError, ⟨[], inj._cache, nid⟩)) := by
  constructor
  · intro inj ct fuel t ctx nid k b₁ b₂ h1 h2
    have hc : hasCollision ctx inj._context = true := hasCollision_true _ _ k b₁ b₂ h1 h2
    simp [Injector.resolve, hc]
  · intro inj ct fuel t ctx nid k b₁ b₂ h1 h2
    have hc : hasCollision ctx inj._context = true := hasCollision_true _ _ k b₁ b₂ h1 h2
    simp [AsyncInjector.resolve, hc]

/-- A second context that also binds `"x"`. -/
def bcXAlt : BindingContext := ⟨[(.str "x", (.lit (.pstr "z"), .Local))]⟩

/-- Witness for C5: ambient `bcX` and override `bcXAlt` both bind `"x"`;
both variants fail before construction with the cache untouched. -/
theorem C5_collision_atomic_witness :
    Injector.resolve ⟨bcX, .Local, [(.cls 7, .pobj 7 0)]⟩ ct0 5 (.str "x") (some bcXAlt) 3 =
      (.error .assertionError, ⟨[], [(.cls 7, .pobj 7 0)], 3⟩)
    ∧ AsyncInjector.resolve ⟨bcX, .Local, [(.cls 7, .pobj 7 0)]⟩ ct0 5 (.str "x")
        (some bcXAlt) 3 =
      (.error .assertionError, ⟨[], [(.cls 7, .pobj 7 0)], 3⟩) :=
  ⟨C5_collision_atomic.1 _ ct0 5 (.str "x") bcXAlt 3 (.str "x")
      (.lit (.pstr "z"), .Local) (.lit (.pstr "y"), .Singleton) (by decide) (by decide),
    C5_collision_atomic.2 _ ct0 5 (.str "x") bcXAlt 3 (.str "x")
      (.lit (.pstr "z"), .Local) (.lit (.pstr "y"), .Singleton) (by decide) (by decide)⟩

/-! ### Claim C1 -/

/-- C1: in the parameter loop of `resolve_` (either variant — the loop is
shared), each parameter is first resolved by its name as a string target;
only if that yields the unresolved sentinel and an annotation exists is the
annotation resolved; the parameter joins the argument set (in declared
order) exactly when the final value is not the sentinel, and is omitted
otherwise; and invoking a class with a required parameter missing from the
argument set raises the natural arity `TypeError`. -/
theorem C1_param_resolution :
    (∀ (cfg : RCfg) (fuel : Nat) (p : Param) (ps : List Param)
       (args : List (String × PVal)) (s s₁ : St) (v : PVal),
      resolveR cfg fuel (.str p.name) s = (.ok v, s₁) → v ≠ .pnone →
        resolveParams (resolveR cfg fuel) (p :: ps) args s =
          resolveParams (resolveR cfg fuel) ps (args ++ [(p.name, v)]) s₁)
    ∧ (∀ (cfg : RCfg) (fuel : Nat) (p : Param) (ps : List Param)
       (args : List (String × PVal)) (s s₁ s₂ : St) (ann : Target) (v : PVal),
      resolveR cfg fuel (.str p.name) s = (.ok .pnone, s₁) →
      Param.annotation p = some ann →
      resolveR cfg fuel ann s₁ = (.ok v, s₂) →
        resolveParams (resolveR cfg fuel) (p :: ps) args s =
          resolveParams (resolveR cfg fuel) ps
            (if v ≠ .pnone then args ++ [(p.name, v)] else args) s₂)
    ∧ (∀ (cfg : RCfg) (fuel : Nat) (p : Param) (ps : List Param)
       (args : List (String × PVal)) (s s₁ : St),
      resolveR cfg fuel (.str p.name) s = (.ok .pnone, s₁) →
      Param.annotation p = Option.none →
        resolveParams (resolveR cfg fuel) (p :: ps) args s =
          resolveParams (resolveR cfg fuel) ps args s₁)
    ∧ (∀ (ct : ClassTable) (c : Nat) (args : List (String × PVal)) (n : Nat),
      (∃ p, p ∈ ct.sig c ∧ alGet args p.name = Option.none ∧ p.default = Option.none) →
        callConcrete ct (.cls c) args n = (.error .typeError, n)) := by
  refine ⟨?_, ?_, ?_, ?_⟩
  · intro cfg fuel p ps args s s₁ v h hne
    cases v with
    | pnone => exact absurd rfl hne
    | pint n => simp [resolveParams, h]
    | pstr x => simp [resolveParams, h]
    | pdct i => simp [resolveParams, h]
    | pobj c a => simp [resolveParams, h]
    | pawait w => simp [resolveParams, h]
  · intro cfg fuel p ps args s s₁ s₂ ann v h1 hann h2
    simp [resolveParams, h1, hann, h2]
  · intro cfg fuel p ps args s s₁ h1 hann
    simp [resolveParams, h1, hann]
  · intro ct c args n hex
    obtain ⟨p, hmem, h1, h2⟩ := hex
    have ha : ¬arityOk (ct.sig c) args = true := by
      intro hall
      have := List.all_eq_true.mp hall p hmem
      simp [h1, h2] at this
    simp [callConcrete, ha]

/-- Witness for C1: with `"test"` bound to a provider of `5`, the loop
resolves the parameter by name (its class annotation is never needed) and
appends `("test", 5)` to the argument set; and calling class 0 (required
parameter `test`) with an empty argument set raises `TypeError`. -/
theorem C1_param_resolution_witness :
    resolveParams (resolveR ⟨false, ct0, BindingContext.empty, bcFiveProv, .Local⟩ 1)
        [⟨"test", some (.cls 3), Option.none⟩] [] ⟨[], [], 0⟩ =
      resolveParams (resolveR ⟨false, ct0, BindingContext.empty, bcFiveProv, .Local⟩ 1)
        [] [("test", .pint 5)] ⟨[], [], 0⟩
    ∧ callConcrete ctReq (.cls 0) [] 0 = (.error .typeError, 0) :=
  ⟨C1_param_resolution.1 _ 1 ⟨"test", some (.cls 3), Option.none⟩ [] [] _ _ (.pint 5)
      (by decide) (by decide),
    C1_param_resolution.2.2.2 ctReq 0 [] 0
      ⟨⟨"test", Option.none, Option.none⟩, by decide, rfl, rfl⟩⟩

/-! ### Extraction helpers for successful resolutions -/

theorem cachedVal_congr (s s' : St) (t : Target)
    (h1 : alGet s'.cache t = alGet s.cache t)
    (h2 : alGet s'.gcache t = alGet s.gcache t) :
    cachedVal s' t = cachedVal s t := by
  simp [cachedVal, h1, h2]

theorem cachedVal_topInit (g : List (Target × PVal)) (n : Nat) (t : Target) :
    cachedVal ⟨[], g, n⟩ t = (alGet g t).getD .pnone := by
  simp [cachedVal, alGet]

/-- A successful miss-path resolution decomposes into a successful
invocation step followed by the caching step. -/
theorem resolveR_ok_extract (cfg : RCfg) (fuel : Nat) (t : Target) (s : St)
    (con : Concrete) (sc : BindingScope) (v : PVal) (s₁ : St)
    (hmiss : cachedVal s t = .pnone) (hb : mergedBinding cfg t = some (con, sc))
    (h : resolveR cfg (fuel + 1) t s = (.ok v, s₁)) :
    ∃ s', invokeStep cfg (resolveR cfg fuel) con s = (.ok v, s')
      ∧ s₁ = applyScope sc t v s' := by
  rw [resolveR_missBound cfg fuel t s con sc hmiss hb] at h
  rcases hstep : invokeStep cfg (resolveR cfg fuel) con s with ⟨r, s'⟩
  rw [hstep] at h
  cases r with
  | error e => simp at h
  | ok w =>
    simp only [Prod.mk.injEq, Except.ok.injEq] at h
    obtain ⟨h1, h2⟩ := h
    subst h1
    exact ⟨s', rfl, h2.symm⟩

/-! ### Claim C6 -/

/-- Target `"test"` bound `Transient` to the literal dict `{}` — the situation of
`test_falsy_callable` in the repository's own test-suite. -/
def bcDictTransient : BindingContext := ⟨[(.str "test", (.lit (.pdct 7), .Transient))]⟩

/-- C6 counterexample: a `Transient` binding whose provider is a
non-callable literal returns the SAME instance on both references within
one call (the state, including the allocation counter, does not move, and
the second reference returns the identical dict), so "two references to the
same transient target within one call yield distinct instances" is false as
stated — the repository's own `test_falsy_callable` asserts this sameness
(`self.assertIs(result, dict_)`). -/
theorem C6_transient_counterexample :
    resolveR ⟨false, ct0, BindingContext.empty, bcDictTransient, .Local⟩ 5 (.str "test")
        ⟨[], [], 0⟩ = (.ok (.pdct 7), ⟨[], [], 0⟩)
    ∧ (resolveR ⟨false, ct0, BindingContext.empty, bcDictTransient, .Local⟩ 5 (.str "test")
        (resolveR ⟨false, ct0, BindingContext.empty, bcDictTransient, .Local⟩ 5 (.str "test")
          ⟨[], [], 0⟩).2).1 = .ok (.pdct 7) := by
  refine ⟨by decide, by decide⟩

/-- C6 (amended): a `Transient`-scoped target is never written to either
cache by any resolution; and when its provider is a class (a constructor of
fresh instances), two successive references to it within one top-level call
yield distinct instances.  (A transient target bound to a non-callable
literal returns the same value on every reference — see the
counterexample.) -/
theorem C6_transient_fresh :
    (∀ (cfg : RCfg) (t : Target), assignedScope cfg t = some .Transient →
      ∀ (fuel : Nat) (u : Target) (s : St),
        alGet (resolveR cfg fuel u s).2.cache t = alGet s.cache t
        ∧ alGet (resolveR cfg fuel u s).2.gcache t = alGet s.gcache t)
    ∧ (∀ (cfg : RCfg) (fuel₁ fuel₂ : Nat) (t : Target) (s : St) (c : Nat)
         (v₁ : PVal) (s₁ : St) (v₂ : PVal) (s₂ : St),
        mergedBinding cfg t = some (.cls c, .Transient) →
        cachedVal s t = .pnone →
        resolveR cfg (fuel₁ + 1) t s = (.ok v₁, s₁) →
        resolveR cfg (fuel₂ + 1) t s₁ = (.ok v₂, s₂) →
        v₁ ≠ v₂) := by
  constructor
  · intro cfg t hsc fuel u s
    refine ⟨resolveR_cache_frame cfg t ?_ fuel u s,
      resolveR_gcache_frame cfg t ?_ fuel u s⟩
    · rw [hsc]; simp
    · rw [hsc]; simp
  · intro cfg fuel₁ fuel₂ t s c v₁ s₁ v₂ s₂ hb hmiss h1 h2
    have hsc : assignedScope cfg t = some .Transient := by simp [assignedScope, hb]
    obtain ⟨s', hstep₁, hs₁⟩ := resolveR_ok_extract cfg fuel₁ t s _ _ v₁ s₁ hmiss hb h1
    have hs₁' : s₁ = s' := hs₁
    obtain ⟨a₁, hv₁, _, hhi₁⟩ :=
      invokeStep_ok_shape cfg _ (resolveR_nextId_mono cfg fuel₁) _ _ _ _ hstep₁
    have hmiss₂ : cachedVal s₁ t = .pnone := by
      have hc := resolveR_cache_frame cfg t (by rw [hsc]; simp) (fuel₁ + 1) t s
      have hg := resolveR_gcache_frame cfg t (by rw [hsc]; simp) (fuel₁ + 1) t s
      rw [h1] at hc hg
      dsimp only at hc hg
      rw [cachedVal_congr s s₁ t hc hg]
      exact hmiss
    obtain ⟨s'', hstep₂, _⟩ := resolveR_ok_extract cfg fuel₂ t s₁ _ _ v₂ s₂ hmiss₂ hb h2
    obtain ⟨a₂, hv₂, hlo₂, _⟩ :=
      invokeStep_ok_shape cfg _ (resolveR_nextId_mono cfg fuel₂) _ _ _ _ hstep₂
    have hlt : a₁ < a₂ := by
      have : a₁ < s₁.nextId := by rw [hs₁']; exact hhi₁
      omega
    rw [hv₁, hv₂]
    intro he
    simp only [PVal.pobj.injEq] at he
    omega

/-- Class 0 bound `Transient` to itself. -/
def bcClsTransient : BindingContext := ⟨[(.cls 0, (.cls 0, .Transient))]⟩

/-- Witness for C6 (amended): with class 0 bound transiently, neither cache
gains an entry for it, and the two instances produced by successive
references within one call are distinct. -/
theorem C6_transient_fresh_witness :
    alGet (resolveR ⟨false, ct0, BindingContext.empty, bcClsTransient, .Local⟩ 5 (.cls 0)
        ⟨[], [], 0⟩).2.cache (.cls 0) = alGet (⟨[], [], 0⟩ : St).cache (.cls 0)
    ∧ (PVal.pobj 0 0 ≠ PVal.pobj 0 1) :=
  ⟨(C6_transient_fresh.1 ⟨false, ct0, BindingContext.empty, bcClsTransient, .Local⟩ (.cls 0)
      (by decide) 5 (.cls 0) ⟨[], [], 0⟩).1,
    C6_transient_fresh.2 ⟨false, ct0, BindingContext.empty, bcClsTransient, .Local⟩ 4 4
      (.cls 0) ⟨[], [], 0⟩ 0 (.pobj 0 0) ⟨[], [], 1⟩ (.pobj 0 1) ⟨[], [], 2⟩
      (by decide) (by decide) (by decide) (by decide)⟩

/-! ### Claim C7 -/

/-- Target `"x"` bound `Local` to the literal `5`. -/
def bcLocalFive : BindingContext := ⟨[(.str "x", (.lit (.pint 5), .Local))]⟩

/-- C7 counterexample: a `Local` binding to a non-callable literal yields
the SAME instance (`5`) in a subsequent separate `resolve()` call on the
same injector (the second call starts from the injector cache and
allocation counter the first call left behind, which the local-scoped first
call did not touch), so "a subsequent separate resolve() call yields a
different instance" is false as stated. -/
theorem C7_local_counterexample :
    (Injector.resolve ⟨bcLocalFive, .Local, []⟩ ct0 5 (.str "x") Option.none 0).1 =
      .ok (.pint 5)
    ∧ (Injector.resolve ⟨bcLocalFive, .Local,
        (Injector.resolve ⟨bcLocalFive, .Local, []⟩ ct0 5 (.str "x") Option.none 0).2.gcache⟩
        ct0 5 (.str "x") Option.none
        (Injector.resolve ⟨bcLocalFive, .Local, []⟩ ct0 5 (.str "x")
          Option.none 0).2.nextId).1 = .ok (.pint 5) := by
  refine ⟨by decide, by decide⟩

/-- C7 (amended): a `Local`-scoped target is cached in the call-scoped
cache on first resolution, and every further reference within the same call
returns the identical cached instance with the state unchanged (provided
the value is not `None`); the injector-lifetime cache never receives the
target, and the call-scoped cache is created fresh per top-level call — so
when the provider is a class, a subsequent separate `resolve()` call on the
same injector constructs a distinct instance.  (Literal providers return
the same value across calls — see the counterexample.) -/
theorem C7_local_call_cache :
    (∀ (cfg : RCfg) (fuel fuel' : Nat) (t : Target) (s : St) (con : Concrete)
       (v : PVal) (s₁ : St),
      mergedBinding cfg t = some (con, .Local) → cachedVal s t = .pnone →
      resolveR cfg (fuel + 1) t s = (.ok v, s₁) →
        alGet s₁.cache t = some v
        ∧ (v ≠ .pnone → resolveR cfg (fuel' + 1) t s₁ = (.ok v, s₁)))
    ∧ (∀ (cfg : RCfg) (t : Target), assignedScope cfg t = some .Local →
        ∀ (fuel : Nat) (u : Target) (s : St),
          alGet (resolveR cfg fuel u s).2.gcache t = alGet s.gcache t)
    ∧ (∀ (inj : Injector) (ct : ClassTable) (fuel₁ fuel₂ : Nat) (t : Target)
         (octx : Option BindingContext) (nid : Nat) (c : Nat) (v₁ : PVal) (st₁ : St)
         (v₂ : PVal) (st₂ : St),
        mergedBinding ⟨false, ct, octx.getD BindingContext.empty, inj._context,
          inj._default_scope⟩ t = some (.cls c, .Local) →
        cachedVal ⟨[], inj._cache, nid⟩ t = .pnone →
        Injector.resolve inj ct (fuel₁ + 1) t octx nid = (.ok v₁, st₁) →
        Injector.resolve ⟨inj._context, inj._default_scope, st₁.gcache⟩ ct (fuel₂ + 1) t
          octx st₁.nextId = (.ok v₂, st₂) →
        v₁ ≠ v₂) := by
  refine ⟨?_, ?_, ?_⟩
  · intro cfg fuel fuel' t s con v s₁ hb hmiss h
    obtain ⟨s', hstep, hs₁⟩ := resolveR_ok_extract cfg fuel t s con .Local v s₁ hmiss hb h
    have hcache : alGet s₁.cache t = some v := by
      rw [hs₁]
      exact alGet_alSet_self _ _ _
    refine ⟨hcache, ?_⟩
    intro hne
    refine resolveR_cacheHit cfg fuel' t s₁ v ?_ hne
    simp only [cachedVal, hcache, Option.getD_some]
    rw [if_neg hne]
  · intro cfg t hsc fuel u s
    exact resolveR_gcache_frame cfg t (by rw [hsc]; simp) fuel u s
  · intro inj ct fuel₁ fuel₂ t octx nid c v₁ st₁ v₂ st₂ hb hmiss h1 h2
    by_cases hcol : hasCollision (octx.getD BindingContext.empty) inj._context = true
    · simp [Injector.resolve, hcol] at h1
    · simp only [Injector.resolve, hcol, Bool.false_eq_true, if_false] at h1 h2
      have hsc : assignedScope ⟨false, ct, octx.getD BindingContext.empty, inj._context,
          inj._default_scope⟩ t = some .Local := by
        simp [assignedScope, hb]
      obtain ⟨s', hstep₁, hs₁⟩ := resolveR_ok_extract _ fuel₁ t _ _ .Local v₁ st₁ hmiss hb h1
      obtain ⟨a₁, hv₁, _, hhi₁⟩ :=
        invokeStep_ok_shape _ _ (resolveR_nextId_mono _ fuel₁) _ _ _ _ hstep₁
      have hnid₁ : st₁.nextId = s'.nextId := by rw [hs₁]; rfl
      have hgc : alGet st₁.gcache t = alGet inj._cache t := by
        have hg := resolveR_gcache_frame _ t (by rw [hsc]; simp) (fuel₁ + 1) t
          ⟨[], inj._cache, nid⟩
        rw [h1] at hg
        exact hg
      have hmiss₂ : cachedVal ⟨[], st₁.gcache, st₁.nextId⟩ t = .pnone := by
        rw [cachedVal_topInit, hgc]
        rw [cachedVal_topInit] at hmiss
        exact hmiss
      obtain ⟨s'', hstep₂, _⟩ := resolveR_ok_extract _ fuel₂ t _ _ .Local v₂ st₂ hmiss₂ hb h2
      obtain ⟨a₂, hv₂, hlo₂, _⟩ :=
        invokeStep_ok_shape _ _ (resolveR_nextId_mono _ fuel₂) _ _ _ _ hstep₂
      rw [hv₁, hv₂]
      intro he
      simp only [PVal.pobj.injEq] at he
      have : a₁ < st₁.nextId := by rw [hnid₁]; exact hhi₁
      simp only [St.nextId] at hlo₂
      omega

/-- Class 0 bound `Local` to itself. -/
def bcClsLocal : BindingContext := ⟨[(.cls 0, (.cls 0, .Local))]⟩

/-- Witness for C7 (amended): class 0 locally bound; within one call the
entry is cached and a second reference returns the identical instance with
the state unchanged; across two separate top-level calls on the same
injector, the instances are distinct. -/
theorem C7_local_call_cache_witness :
    alGet ([(Target.cls 0, PVal.pobj 0 3)] : List (Target × PVal)) (.cls 0) =
        some (.pobj 0 3)
    ∧ resolveR ⟨false, ct0, BindingContext.empty, bcClsLocal, .Local⟩ 1 (.cls 0)
        ⟨[(.cls 0, .pobj 0 3)], [], 4⟩ = (.ok (.pobj 0 3), ⟨[(.cls 0, .pobj 0 3)], [], 4⟩)
    ∧ (PVal.pobj 0 3 ≠ PVal.pobj 0 4) := by
  have hA := (C7_local_call_cache.1 ⟨false, ct0, BindingContext.empty, bcClsLocal, .Local⟩
    4 0 (.cls 0) ⟨[], [], 3⟩ (.cls 0) (.pobj 0 3) ⟨[(.cls 0, .pobj 0 3)], [], 4⟩
    (by decide) (by decide) (by decide))
  have hC := C7_local_call_cache.2.2 ⟨bcClsLocal, .Local, []⟩ ct0 4 4 (.cls 0)
    Option.none 3 0 (.pobj 0 3) ⟨[(.cls 0, .pobj 0 3)], [], 4⟩ (.pobj 0 4)
    ⟨[(.cls 0, .pobj 0 4)], [], 5⟩ (by decide) (by decide) (by decide) (by decide)
  exact ⟨hA.1, hA.2 (by decide), hC⟩

/-! ### Claim C8 -/

/-- A constant-bodied function returns the same value on every invocation,
whatever the allocation counter. -/
theorem lamResult_const (a l : Bool) (k : PVal) (n m : Nat) :
    lamResult a l (.const k) n = lamResult a l (.const k) m := rfl

/-- A dict-producing function never returns `None`. -/
theorem lamResult_freshDict_ne (a l : Bool) (n : Nat) :
    lamResult a l .freshDict n ≠ .pnone := by
  cases a <;> cases l <;>
    simp [lamResult, evalBody, PVal.isAwaitable, PVal.awaited]

/-- C8: the injector-lifetime cache is mutated only by Singleton-scoped
resolutions — any resolution leaves the injector-cache entry of every
target whose assigned scope is not `Singleton` unchanged (so Transient- and
Local-scoped targets never reach it) — and consequently a target bound with
`Singleton` scope yields the identical instance across two successful
`resolve()` calls against the same injector (the second call starting from
the injector cache the first left behind). -/
theorem C8_singleton_scope :
    (∀ (cfg : RCfg) (t : Target), assignedScope cfg t ≠ some .Singleton →
      ∀ (fuel : Nat) (u : Target) (s : St),
        alGet (resolveR cfg fuel u s).2.gcache t = alGet s.gcache t)
    ∧ (∀ (inj : Injector) (ct : ClassTable) (fuel₁ fuel₂ : Nat) (t : Target)
         (octx : Option BindingContext) (nid n₂ : Nat) (con : Concrete)
         (v : PVal) (st₁ : St) (w : PVal) (st₂ : St),
        mergedBinding ⟨false, ct, octx.getD BindingContext.empty, inj._context,
          inj._default_scope⟩ t = some (con, .Singleton) →
        Injector.resolve inj ct fuel₁ t octx nid = (.ok v, st₁) →
        Injector.resolve ⟨inj._context, inj._default_scope, st₁.gcache⟩ ct fuel₂ t octx
          n₂ = (.ok w, st₂) →
        w = v) := by
  constructor
  · intro cfg t hsc fuel u s
    exact resolveR_gcache_frame cfg t hsc fuel u s
  · intro inj ct fuel₁ fuel₂ t octx nid n₂ con v st₁ w st₂ hb h1 h2
    by_cases hcol : hasCollision (octx.getD BindingContext.empty) inj._context = true
    · simp [Injector.resolve, hcol] at h1
    · simp only [Injector.resolve, hcol, Bool.false_eq_true, if_false] at h1 h2
      cases fuel₁ with
      | zero => simp [resolveR] at h1
      | succ f₁ =>
        cases fuel₂ with
        | zero => simp [resolveR] at h2
        | succ f₂ =>
          by_cases hm1 : cachedVal ⟨[], inj._cache, nid⟩ t = .pnone
          · -- first call misses and computes v, storing it under t
            obtain ⟨s', hstep₁, hs₁⟩ :=
              resolveR_ok_extract _ f₁ t _ con .Singleton v st₁ hm1 hb h1
            have hget : alGet st₁.gcache t = some v := by
              rw [hs₁]
              exact alGet_alSet_self _ _ _
            by_cases hv : v = .pnone
            · -- a cached None is missed again; the concrete re-produces None
              have hm2 : cachedVal ⟨[], st₁.gcache, n₂⟩ t = .pnone := by
                rw [cachedVal_topInit, hget, Option.getD_some, hv]
              obtain ⟨s'', hstep₂, _⟩ :=
                resolveR_ok_extract _ f₂ t _ con .Singleton w st₂ hm2 hb h2
              have shape₁ := invokeStep_ok_shape _ _ (resolveR_nextId_mono _ f₁) _ _ _ _ hstep₁
              have shape₂ := invokeStep_ok_shape _ _ (resolveR_nextId_mono _ f₂) _ _ _ _ hstep₂
              cases con with
              | cls c =>
                obtain ⟨a, hva, _, _⟩ := shape₁
                rw [hv] at hva
                simp at hva
              | lit x =>
                have hvx : v = x := shape₁
                have hwx : w = x := shape₂
                rw [hvx, hwx]
              | lam la ps body =>
                obtain ⟨n, _, hv1⟩ := shape₁
                obtain ⟨m, _, hv2⟩ := shape₂
                cases body with
                | const k =>
                  rw [hv1, hv2]
                  exact lamResult_const _ _ k m n
                | freshDict =>
                  exfalso
                  rw [hv1] at hv
                  exact lamResult_freshDict_ne _ _ n hv
            · -- a cached non-None value is returned immediately by call 2
              have hm2 : cachedVal ⟨[], st₁.gcache, n₂⟩ t = v := by
                rw [cachedVal_topInit, hget, Option.getD_some]
              rw [resolveR_cacheHit _ f₂ t _ v hm2 hv] at h2
              simp only [Prod.mk.injEq, Except.ok.injEq] at h2
              exact h2.1.symm
          · -- the first call was itself a cache hit: nothing changed
            have hval := resolveR_cacheHit ⟨false, ct, octx.getD BindingContext.empty,
              inj._context, inj._default_scope⟩ f₁ t ⟨[], inj._cache, nid⟩
              (cachedVal ⟨[], inj._cache, nid⟩ t) rfl hm1
            rw [hval] at h1
            simp only [Prod.mk.injEq, Except.ok.injEq] at h1
            obtain ⟨hv, hst⟩ := h1
            have hm2 : cachedVal ⟨[], st₁.gcache, n₂⟩ t = v := by
              rw [cachedVal_topInit, ← hst]
              rw [cachedVal_topInit] at hv
              exact hv
            have hv2 : v ≠ .pnone := by
              rw [hv] at hm1
              exact hm1
            rw [resolveR_cacheHit _ f₂ t _ v hm2 hv2] at h2
            simp only [Prod.mk.injEq, Except.ok.injEq] at h2
            exact h2.1.symm

/-- Class 0 bound `Singleton` to itself. -/
def bcClsSingleton : BindingContext := ⟨[(.cls 0, (.cls 0, .Singleton))]⟩

/-- Witness for C8: a non-singleton key's injector-cache entry is untouched
by a resolution, and with class 0 singleton-bound, a second `resolve()`
call on the same injector returns the very instance the first produced. -/
theorem C8_singleton_scope_witness :
    alGet (resolveR ⟨false, ct0, BindingContext.empty, bcClsTransient, .Local⟩ 5 (.cls 0)
        ⟨[], [], 0⟩).2.gcache (.cls 0) = alGet ([] : List (Target × PVal)) (.cls 0)
    ∧ (PVal.pobj 0 0 = PVal.pobj 0 0) :=
  ⟨C8_singleton_scope.1 ⟨false, ct0, BindingContext.empty, bcClsTransient, .Local⟩ (.cls 0)
      (by decide) 5 (.cls 0) ⟨[], [], 0⟩,
    C8_singleton_scope.2 ⟨bcClsSingleton, .Local, []⟩ ct0 5 5 (.cls 0) Option.none 0 1
      (.cls 0) (.pobj 0 0) ⟨[], [(.cls 0, .pobj 0 0)], 1⟩ (.pobj 0 0)
      ⟨[], [(.cls 0, .pobj 0 0)], 1⟩ (by decide) (by decide) (by decide)⟩

/-! ### Claim C9 -/

/-- A concrete provider whose invocation can never return an awaitable:
anything except an `async` function or a function returning an awaitable
value. -/
def Concrete.awaitFree : Concrete → Bool
  | .lam true _ _ => false
  | .lam false _ (.const v) => !v.isAwaitable
  | _ => true

/-- All providers registered in a context are await-free. -/
def BindingContext.awaitFree (bc : BindingContext) : Bool :=
  bc._bindings.all (fun kv => kv.2.1.awaitFree)

theorem toConcrete_awaitFree (t : Target) : t.toConcrete.awaitFree = true := by
  cases t <;> rfl

theorem mergedBinding_awaitFree (b : Bool) (ct : ClassTable) (ctx amb : BindingContext)
    (ds : BindingScope) (t : Target) (con : Concrete) (sc : BindingScope)
    (hc : ctx.awaitFree = true) (ha : amb.awaitFree = true)
    (h : mergedBinding ⟨b, ct, ctx, amb, ds⟩ t = some (con, sc)) :
    con.awaitFree = true := by
  simp only [mergedBinding] at h
  rcases hg : ctx.get t with _ | bnd
  · rw [hg] at h
    simp only [Option.orElse] at h
    have hmem := alGet_eq_some_mem _ _ _ h
    exact List.all_eq_true.mp ha _ hmem
  · rw [hg] at h
    simp only [Option.orElse] at h
    have hb := Option.some.inj h
    subst hb
    have hmem := alGet_eq_some_mem _ _ _ hg
    exact List.all_eq_true.mp hc _ hmem

theorem callConcrete_ok_not_awaitable (ct : ClassTable) (con : Concrete)
    (args : List (String × PVal)) (n : Nat) (r : PVal) (nid : Nat)
    (hf : con.awaitFree = true) (h : callConcrete ct con args n = (.ok r, nid)) :
    r.isAwaitable = false := by
  cases con with
  | cls c =>
    by_cases ha : arityOk (ct.sig c) args = true
    · simp only [callConcrete, if_pos ha, Prod.mk.injEq, Except.ok.injEq] at h
      rw [← h.1]
      rfl
    · simp [callConcrete, ha] at h
  | lam la ps body =>
    cases la with
    | true => simp [Concrete.awaitFree] at hf
    | false =>
      by_cases ha : arityOk ps args = true
      · cases body with
        | const k =>
          simp only [callConcrete, if_pos ha, evalBody, Prod.mk.injEq, Except.ok.injEq,
            if_false, Bool.false_eq_true] at h
          rw [← h.1]
          simpa [Concrete.awaitFree] using hf
        | freshDict =>
          simp only [callConcrete, if_pos ha, evalBody, Prod.mk.injEq, Except.ok.injEq,
            if_false, Bool.false_eq_true] at h
          rw [← h.1]
          rfl
      · simp [callConcrete, ha] at h
  | lit v => simp [callConcrete] at h

theorem invokeStep_awaitFree_eq (ct : ClassTable) (ctx amb : BindingContext)
    (ds : BindingScope) (resolver : Target → St → (Except RErr PVal) × St)
    (con : Concrete) (s : St) (hf : con.awaitFree = true) :
    invokeStep ⟨true, ct, ctx, amb, ds⟩ resolver con s =
      invokeStep ⟨false, ct, ctx, amb, ds⟩ resolver con s := by
  cases con with
  | lit v => rfl
  | cls c =>
    simp only [invokeStep]
    rcases hp : resolveParams resolver (sigParams ct (.cls c)) [] s with ⟨rp, s₁⟩
    cases rp with
    | error e => rfl
    | ok args =>
      dsimp only
      rcases hcall : callConcrete ct (.cls c) args s₁.nextId with ⟨rc, nid⟩
      cases rc with
      | error e => rfl
      | ok r =>
        have hr := callConcrete_ok_not_awaitable ct (.cls c) args s₁.nextId r nid hf hcall
        simp [hr]
  | lam la ps body =>
    simp only [invokeStep]
    rcases hp : resolveParams resolver (sigParams ct (.lam la ps body)) [] s with ⟨rp, s₁⟩
    cases rp with
    | error e => rfl
    | ok args =>
      dsimp only
      rcases hcall : callConcrete ct (.lam la ps body) args s₁.nextId with ⟨rc, nid⟩
      cases rc with
      | error e => rfl
      | ok r =>
        have hr := callConcrete_ok_not_awaitable ct (.lam la ps body) args s₁.nextId r nid
          hf hcall
        simp [hr]

/-- The two variants compute identically when no provider can produce an
awaitable: one algorithm, instantiated twice. -/
theorem resolveR_async_sync_eq (ct : ClassTable) (ctx amb : BindingContext)
    (ds : BindingScope) (hc : ctx.awaitFree = true) (ha : amb.awaitFree = true) :
    ∀ (fuel : Nat) (t : Target) (s : St),
      resolveR ⟨true, ct, ctx, amb, ds⟩ fuel t s =
        resolveR ⟨false, ct, ctx, amb, ds⟩ fuel t s := by
  intro fuel
  induction fuel with
  | zero => intro t s; rfl
  | succ n ih =>
    intro t s
    have hres : resolveR ⟨true, ct, ctx, amb, ds⟩ n =
        resolveR ⟨false, ct, ctx, amb, ds⟩ n :=
      funext fun u => funext fun s' => ih u s'
    simp only [resolveR]
    by_cases hcv : cachedVal s t ≠ .pnone
    · rw [if_pos hcv, if_pos hcv]
    · rw [if_neg hcv, if_neg hcv]
      have hmb : mergedBinding ⟨true, ct, ctx, amb, ds⟩ t =
          mergedBinding ⟨false, ct, ctx, amb, ds⟩ t := rfl
      rcases hg : mergedBinding ⟨false, ct, ctx, amb, ds⟩ t with _ | ⟨con, sc⟩
      · rw [hmb, hg]
        by_cases hstr : t.isStr = true
        · simp [hstr]
        · simp only [hstr, and_false, if_false, Option.getD]
          rw [hres, invokeStep_awaitFree_eq ct ctx amb ds _ t.toConcrete s
            (toConcrete_awaitFree t)]
      · rw [hmb, hg]
        have hf : con.awaitFree = true :=
          mergedBinding_awaitFree false ct ctx amb ds t con sc hc ha hg
        simp only [Option.getD, reduceCtorEq, false_and, if_false]
        rw [hres, invokeStep_awaitFree_eq ct ctx amb ds _ con s hf]

/-- The body value an `async def` provider completes to. -/
theorem lamResult_async_await (body : LamBody) (n : Nat) :
    lamResult true true body n = (evalBody body n).1 := by
  cases body <;> simp [lamResult, evalBody, PVal.isAwaitable, PVal.awaited]

/-- C9: in the suspend-capable variant, a binding to an `async` function —
whose invocation returns a pending/awaitable value — resolves to the
COMPLETED body value (the awaitable is awaited), and that completed value
is what gets cached under the binding's scope; and whenever no registered
provider can produce an awaitable, the suspend-capable variant computes
exactly the same results as the blocking one: `AsyncInjector.resolve` and
`Injector.resolve` agree on every input (the two share one algorithm). -/
theorem C9_async_refinement :
    (∀ (cfg : RCfg) (fuel : Nat) (t : Target) (s : St) (ps : List Param)
       (body : LamBody) (sc : BindingScope) (v : PVal) (s' : St),
      cfg.isAsync = true →
      mergedBinding cfg t = some (.lam true ps body, sc) →
      cachedVal s t = .pnone →
      resolveR cfg (fuel + 1) t s = (.ok v, s') →
        (∃ n, s.nextId ≤ n ∧ v = (evalBody body n).1)
        ∧ (sc = .Singleton → alGet s'.gcache t = some v)
        ∧ (sc = .Local → alGet s'.cache t = some v))
    ∧ (∀ (c : BindingContext) (d : BindingScope) (g : List (Target × PVal))
         (ct : ClassTable) (fuel : Nat) (t : Target) (octx : Option BindingContext)
         (nid : Nat),
        c.awaitFree = true → (octx.getD BindingContext.empty).awaitFree = true →
          AsyncInjector.resolve ⟨c, d, g⟩ ct fuel t octx nid =
            Injector.resolve ⟨c, d, g⟩ ct fuel t octx nid) := by
  constructor
  · intro cfg fuel t s ps body sc v s' hA hb hmiss h
    obtain ⟨s'', hstep, hs'⟩ :=
      resolveR_ok_extract cfg fuel t s (.lam true ps body) sc v s' hmiss hb h
    obtain ⟨n, hlo, hv⟩ :=
      invokeStep_ok_shape cfg _ (resolveR_nextId_mono cfg fuel) _ _ _ _ hstep
    refine ⟨⟨n, hlo, ?_⟩, ?_, ?_⟩
    · rw [hv, hA, lamResult_async_await]
    · intro hsc
      rw [hs', hsc]
      exact alGet_alSet_self _ _ _
    · intro hsc
      rw [hs', hsc]
      exact alGet_alSet_self _ _ _
  · intro c d g ct fuel t octx nid hc ho
    simp only [AsyncInjector.resolve, Injector.resolve]
    by_cases hcol : hasCollision (octx.getD BindingContext.empty) c = true
    · rw [if_pos hcol, if_pos hcol]
    · rw [if_neg hcol, if_neg hcol]
      exact resolveR_async_sync_eq ct (octx.getD BindingContext.empty) c d ho hc fuel t
        ⟨[], g, nid⟩

/-- Target `"x"` bound (Singleton) to an `async` function completing to `3`. -/
def bcAsyncThree : BindingContext :=
  ⟨[(.str "x", (.lam true [] (.const (.pint 3)), .Singleton))]⟩

/-- Witness for C9: resolving the async binding yields the completed `3`
(and the injector cache receives `3`, not a pending value); and on the
await-free context `bcFiveProv` the two injector variants agree. -/
theorem C9_async_refinement_witness :
    alGet ([(Target.str "x", PVal.pint 3)] : List (Target × PVal)) (.str "x") =
        some (.pint 3)
    ∧ AsyncInjector.resolve ⟨bcFiveProv, .Local, []⟩ ct0 3 (.str "test") Option.none 0 =
        Injector.resolve ⟨bcFiveProv, .Local, []⟩ ct0 3 (.str "test") Option.none 0 :=
  ⟨(C9_async_refinement.1 ⟨true, ct0, BindingContext.empty, bcAsyncThree, .Local⟩ 0
      (.str "x") ⟨[], [], 0⟩ [] (.const (.pint 3)) .Singleton (.pint 3)
      ⟨[], [(.str "x", .pint 3)], 0⟩ rfl (by decide) (by decide) (by decide)).2.1 rfl,
    C9_async_refinement.2 bcFiveProv .Local [] ct0 3 (.str "test") Option.none 0
      (by decide) (by decide)⟩

end Filament
